import Mathlib

/-!
Verification of the fan-out agent-comparison program (`src/app.py`).

The development shallowly embeds the program's core logic:

* `invoke_agent` (app.py lines 22-69): one remote agent call, its streamed
  response concatenation, placeholder substitution, and error handling with
  the `stopSequences` remediation hint.
* the compare handler (app.py lines 112-150): validation of agent ids, the
  reset of the live result mapping, the fan-out over all configs and the
  collection of one result per config name into a dict, including the
  fallback failure entry when a future raises.
* the clear handler (app.py lines 112-114).

The remote service is injected as a function (the code's `boto3` client),
and the nondeterministic completion order of `as_completed` is an explicit
permutation parameter.  Python's `dict` is modelled as an association list
whose insert overwrites an existing key in place.
-/

/-! ## Substring containment (Python's `in` operator on strings) -/

/-- Decides whether `pat` is a prefix of `s`, on character lists. -/
def listStartsWith : List Char → List Char → Bool
  | [], _ => true
  | _ :: _, [] => false
  | a :: as, b :: bs => a == b && listStartsWith as bs

/-- Decides whether `pat` occurs as a contiguous substring of `s`,
on character lists; mirrors Python's `pat in s`. -/
def listContains : List Char → List Char → Bool
  | [], pat => listStartsWith pat []
  | a :: rest, pat => listStartsWith pat (a :: rest) || listContains rest pat

/-- Python's `pat in s` on strings. -/
def containsSubstring (s pat : String) : Bool :=
  listContains s.data pat.data

theorem listStartsWith_iff (pat s : List Char) :
    listStartsWith pat s = true ↔ ∃ t, s = pat ++ t := by
  induction pat generalizing s with
  | nil => simp [listStartsWith]
  | cons a as ih =>
    cases s with
    | nil => simp [listStartsWith]
    | cons b bs =>
      simp only [listStartsWith, Bool.and_eq_true, beq_iff_eq, ih,
        List.cons_append, List.cons.injEq]
      constructor
      · rintro ⟨rfl, t, rfl⟩; exact ⟨t, rfl, rfl⟩
      · rintro ⟨t, rfl, rfl⟩; exact ⟨rfl, t, rfl⟩

theorem listContains_iff (s pat : List Char) :
    listContains s pat = true ↔ ∃ pre post, s = pre ++ pat ++ post := by
  induction s with
  | nil =>
    simp only [listContains, listStartsWith_iff]
    constructor
    · rintro ⟨t, ht⟩
      rcases List.append_eq_nil.mp ht.symm with ⟨h1, -⟩
      exact ⟨[], [], by simp [h1]⟩
    · rintro ⟨pre, post, h⟩
      rcases List.append_eq_nil.mp h.symm with ⟨h1, h2⟩
      rcases List.append_eq_nil.mp h1 with ⟨-, h3⟩
      exact ⟨[], by simp [h3]⟩
  | cons a rest ih =>
    simp only [listContains, Bool.or_eq_true, listStartsWith_iff, ih]
    constructor
    · rintro (⟨t, ht⟩ | ⟨pre, post, hp⟩)
      · exact ⟨[], t, by simpa using ht⟩
      · exact ⟨a :: pre, post, by simp [hp]⟩
    · rintro ⟨pre, post, hp⟩
      cases pre with
      | nil => exact Or.inl ⟨post, by simpa using hp⟩
      | cons a' pre' =>
        simp only [List.cons_append, List.cons.injEq] at hp
        exact Or.inr ⟨pre', post, hp.2⟩

theorem containsSubstring_iff (s pat : String) :
    containsSubstring s pat = true ↔ ∃ pre post : String, s = pre ++ pat ++ post := by
  rw [containsSubstring, listContains_iff]
  constructor
  · rintro ⟨pre, post, h⟩
    refine ⟨⟨pre⟩, ⟨post⟩, ?_⟩
    apply String.ext
    simpa [String.data_append] using h
  · rintro ⟨pre, post, h⟩
    exact ⟨pre.data, post.data, by simpa [String.data_append] using congrArg String.data h⟩

/-! ## Data model -/

/-- One agent configuration, as assembled in `models_config`
(app.py lines 96-101). -/
structure AgentConfig where
  name : String
  agent_id : String
  agent_alias_id : String
  session_id : String
deriving DecidableEq

/-- One element of a chunk event's `chunk` dict: the optional `bytes`
payload, already decoded to text (app.py lines 43-45). -/
structure ChunkData where
  bytes : Option String
deriving DecidableEq

/-- One event of the streamed `completion`; it may or may not carry a
`chunk` entry (app.py line 42). -/
structure StreamEvent where
  chunk : Option ChunkData
deriving DecidableEq

/-- Outcome of the remote `client.invoke_agent` call inside the `try`
block: either a response whose `completion` field may be absent, or any
exception raised anywhere in the block, carrying `str(e)`. -/
inductive RemoteOutcome where
  | ok (completion : Option (List StreamEvent))
  | exn (msg : String)
deriving DecidableEq

/-- The result dict built by `invoke_agent` or by the handler's fallback:
`success`, `model`, `timestamp` are always present; `response` is present
exactly when the success branch built the dict, `error` exactly when a
failure branch did (app.py lines 47-52, 64-69, 145-150). -/
structure InvocationResult where
  success : Bool
  response : Option String
  error : Option String
  model : String
  timestamp : String
deriving DecidableEq

/-! ## Single-agent invocation (`invoke_agent`, app.py lines 22-69) -/

/-- The body of the streaming loop (app.py lines 40-45): events without a
`chunk` key or whose chunk dict lacks `bytes` contribute nothing;
otherwise the decoded payload is appended. -/
def appendChunk (output_text : String) (event : StreamEvent) : String :=
  match event.chunk with
  | some chunk_data =>
    match chunk_data.bytes with
    | some b => output_text ++ b
    | none => output_text
  | none => output_text

/-- Concatenation of all chunk payloads in delivery order
(app.py lines 36-45); an absent (`None`) completion contributes
nothing. -/
def processCompletion (completion : Option (List StreamEvent)) : String :=
  match completion with
  | none => ""
  | some events => events.foldl appendChunk ""

/-- The marker looked for in error text (app.py line 57). -/
def stopSequencesMarker : String := "stopSequences"

/-- The fixed remediation hint appended to matching error messages
(app.py lines 58-62). -/
def solutionHint : String :=
  "\n\n💡 Solution: This model doesn't support stop sequences. You need to update your Bedrock agent configuration:\n1. Go to AWS Console → Bedrock → Agents\n2. Select your agent and edit it\n3. In the model settings, remove any stop sequences from the Inference Configuration\n4. Save and create a new version/alias"

/-- Error-message augmentation (app.py lines 54-62). -/
def augmentError (error_msg : String) : String :=
  if containsSubstring error_msg stopSequencesMarker then error_msg ++ solutionHint
  else error_msg

/-- The body of `invoke_agent` after the remote call's outcome is fixed:
the success branch builds the concatenated (or placeholder) response dict,
the `except` branch builds the failure dict with the possibly augmented
message (app.py lines 35-69). -/
def invokeResult (outcome : RemoteOutcome) (model_name now : String) : InvocationResult :=
  match outcome with
  | .ok completion =>
    let output_text := processCompletion completion
    { success := true
      response := some (if output_text = "" then "No response received" else output_text)
      error := none
      model := model_name
      timestamp := now }
  | .exn msg =>
    { success := false
      response := none
      error := some (augmentError msg)
      model := model_name
      timestamp := now }

/-- The injected remote service: what `client.invoke_agent` returns or
raises given the region and the four call parameters
(app.py lines 25-33). -/
abbrev RemoteCall := String → String → String → String → String → RemoteOutcome

/-- `invoke_agent` (app.py lines 22-69): performs the remote call with the
config's identifiers and the prompt, then builds the result dict. -/
def invoke_agent (remote : RemoteCall)
    (agent_id agent_alias_id session_id prompt model_name region_name now : String) :
    InvocationResult :=
  invokeResult (remote region_name agent_id agent_alias_id session_id prompt) model_name now

/-! ## Python dict model

`st.session_state.responses` is a Python `dict[str, result]`.  Assignment
`d[k] = v` overwrites an existing key in place, otherwise appends. -/

/-- Python dict assignment `d[k] = v` on an association list. -/
def dictInsert {α : Type} : List (String × α) → String → α → List (String × α)
  | [], k, v => [(k, v)]
  | (k', v') :: rest, k, v =>
    if k' = k then (k, v) :: rest else (k', v') :: dictInsert rest k v

/-- Python dict lookup `d.get(k)`. -/
def dictLookup {α : Type} : List (String × α) → String → Option α
  | [], _ => none
  | (k', v) :: rest, k => if k' = k then some v else dictLookup rest k

/-- The keys of the dict, in iteration order. -/
def dictKeys {α : Type} (d : List (String × α)) : List String :=
  d.map Prod.fst

theorem dictLookup_insert {α : Type} (d : List (String × α)) (k n : String) (v : α) :
    dictLookup (dictInsert d k v) n = if k = n then some v else dictLookup d n := by
  induction d with
  | nil =>
    by_cases h : k = n <;> simp [dictInsert, dictLookup, h]
  | cons hd rest ih =>
    obtain ⟨k', v'⟩ := hd
    by_cases hk : k' = k
    · subst hk
      by_cases hn : k' = n <;> simp [dictInsert, dictLookup, hn]
    · by_cases hn : k' = n
      · subst hn
        have : ¬ k = k' := fun h => hk h.symm
        simp [dictInsert, dictLookup, hk, this]
      · simp [dictInsert, dictLookup, hk, hn, ih]

theorem dictKeys_insert {α : Type} (d : List (String × α)) (k : String) (v : α) :
    dictKeys (dictInsert d k v) =
      if k ∈ dictKeys d then dictKeys d else dictKeys d ++ [k] := by
  induction d with
  | nil => simp [dictInsert, dictKeys]
  | cons hd rest ih =>
    obtain ⟨k', v'⟩ := hd
    by_cases hk : k' = k
    · subst hk
      simp [dictInsert, dictKeys]
    · have hne : ¬ k = k' := fun h => hk h.symm
      simp only [dictInsert, if_neg hk, dictKeys, List.map_cons] at ih ⊢
      rw [ih]
      by_cases hmem : k ∈ List.map Prod.fst rest <;>
        simp [hmem, hne, Ne.symm hk]

theorem dictLength_insert_mem {α : Type} (d : List (String × α)) (k : String) (v : α)
    (h : k ∈ dictKeys d) : (dictInsert d k v).length = d.length := by
  have h2 := congrArg List.length (dictKeys_insert d k v)
  rw [if_pos h] at h2
  simpa [dictKeys] using h2

theorem dictLength_insert_not_mem {α : Type} (d : List (String × α)) (k : String) (v : α)
    (h : k ∉ dictKeys d) : (dictInsert d k v).length = d.length + 1 := by
  have h2 := congrArg List.length (dictKeys_insert d k v)
  rw [if_neg h] at h2
  simpa [dictKeys] using h2

theorem dictKeys_nodup_insert {α : Type} (d : List (String × α)) (k : String) (v : α)
    (h : (dictKeys d).Nodup) : (dictKeys (dictInsert d k v)).Nodup := by
  rw [dictKeys_insert]
  by_cases hmem : k ∈ dictKeys d
  · simpa [hmem] using h
  · rw [if_neg hmem]
    refine List.Nodup.append h (List.nodup_singleton k) ?_
    intro a ha hb
    simp only [List.mem_singleton] at hb
    exact hmem (hb ▸ ha)

theorem dictLookup_eq_none {α : Type} (d : List (String × α)) (n : String)
    (h : n ∉ dictKeys d) : dictLookup d n = none := by
  induction d with
  | nil => simp [dictLookup]
  | cons hd rest ih =>
    obtain ⟨k', v'⟩ := hd
    simp only [dictKeys, List.map_cons, List.mem_cons, not_or] at h
    have hk : ¬ k' = n := fun hh => h.1 hh.symm
    simp [dictLookup, hk, ih (by simpa [dictKeys] using h.2)]

theorem dictLookup_isSome {α : Type} (d : List (String × α)) (n : String)
    (h : n ∈ dictKeys d) : ∃ v, dictLookup d n = some v := by
  induction d with
  | nil => simp [dictKeys] at h
  | cons hd rest ih =>
    obtain ⟨k', v'⟩ := hd
    by_cases hk : k' = n
    · exact ⟨v', by simp [dictLookup, hk]⟩
    · simp only [dictKeys, List.map_cons, List.mem_cons] at h
      rcases h with h | h
      · exact absurd h.symm hk
      · simpa [dictLookup, hk] using ih (by simpa [dictKeys] using h)

theorem dictLookup_mem_values {α : Type} (d : List (String × α)) (n : String) (v : α)
    (h : dictLookup d n = some v) : (n, v) ∈ d := by
  induction d with
  | nil => simp [dictLookup] at h
  | cons hd rest ih =>
    obtain ⟨k', v'⟩ := hd
    by_cases hk : k' = n
    · subst hk
      have hv : v' = v := by simpa [dictLookup] using h
      subst hv
      exact List.mem_cons_self _ _
    · simp only [dictLookup, if_neg hk] at h
      exact List.mem_cons_of_mem _ (ih h)

/-! ## The compare handler (app.py lines 112-150)

Each submitted future either returns `invoke_agent`'s result dict from
`future.result()`, or raises; the `except` clause of the collection loop
(app.py lines 144-150) turns a raise into a fallback failure entry.  The
order in which `as_completed` yields the futures is nondeterministic, so
the collection is parameterised by an arbitrary arrival order, quantified
as a permutation of the submitted configs in the theorems. -/

/-- What `future.result()` does for one config's task: return the result
dict, or raise with message `str(e)`. -/
inductive TaskOutcome where
  | done (r : InvocationResult)
  | raised (msg : String)

/-- The entry stored for one completed future (app.py lines 139-150):
the task's result, or the fallback failure dict built in the `except`
clause with the config's name as model. -/
def entryFor (task : AgentConfig → TaskOutcome) (config : AgentConfig)
    (now : String) : InvocationResult :=
  match task config with
  | .done r => r
  | .raised msg =>
    { success := false
      response := none
      error := some msg
      model := config.name
      timestamp := now }

/-- The result-collection loop (app.py lines 139-150): for each future in
arrival order, store its entry under the config's name. -/
def collectResults (responses : List (String × InvocationResult))
    (order : List AgentConfig) (task : AgentConfig → TaskOutcome)
    (now : String) : List (String × InvocationResult) :=
  match order with
  | [] => responses
  | config :: rest =>
    collectResults (dictInsert responses config.name (entryFor task config now)) rest task now

/-- Outcome of one press of the compare button (app.py lines 116-150):
`responses` is `st.session_state.responses` afterwards, `errorShown` the
validation message if one was displayed, and `invoked` the configs whose
invocation futures were submitted to the executor. -/
structure CompareRun where
  responses : List (String × InvocationResult)
  errorShown : Option String
  invoked : List AgentConfig
deriving DecidableEq

/-- The compare-button handler (app.py lines 116-150).  `prev` is the live
`st.session_state.responses`; with an empty prompt the guarded block is
skipped entirely; with a config missing its agent id the error is shown
and nothing is submitted; otherwise the mapping is reset to empty, every
config's task is submitted, and the results are collected in arrival
order `order`. -/
def compareHandler (prev : List (String × InvocationResult))
    (models_config : List AgentConfig) (prompt : String)
    (order : List AgentConfig) (task : AgentConfig → TaskOutcome)
    (now : String) : CompareRun :=
  if prompt = "" then
    { responses := prev, errorShown := none, invoked := [] }
  else if ¬ (models_config.all fun config => config.agent_id ≠ "") then
    { responses := prev
      errorShown := some "Please configure all Agent IDs before comparing."
      invoked := [] }
  else
    { responses := collectResults [] order task now
      errorShown := none
      invoked := models_config }

/-- The clear-button handler (app.py lines 112-114): the mapping is
replaced by a fresh empty dict. -/
def clearHandler (_prev : List (String × InvocationResult)) :
    List (String × InvocationResult) := []

/-! ### Lemmas about the collection loop -/

theorem collectResults_lookup_not_mem (order : List AgentConfig)
    (task : AgentConfig → TaskOutcome) (now : String)
    (init : List (String × InvocationResult)) (n : String)
    (h : n ∉ order.map AgentConfig.name) :
    dictLookup (collectResults init order task now) n = dictLookup init n := by
  induction order generalizing init with
  | nil => rfl
  | cons config rest ih =>
    simp only [List.map_cons, List.mem_cons, not_or] at h
    rw [collectResults, ih _ (by simpa using h.2), dictLookup_insert,
      if_neg (fun hh => h.1 hh.symm)]

theorem collectResults_lookup_mem (order : List AgentConfig)
    (task : AgentConfig → TaskOutcome) (now : String)
    (init : List (String × InvocationResult)) (n : String)
    (h : n ∈ order.map AgentConfig.name) :
    ∃ c, c ∈ order ∧ c.name = n ∧
      dictLookup (collectResults init order task now) n = some (entryFor task c now) := by
  induction order generalizing init with
  | nil => simp at h
  | cons config rest ih =>
    by_cases hrest : n ∈ rest.map AgentConfig.name
    · obtain ⟨c, hc, hcn, hlook⟩ := ih _ hrest
      exact ⟨c, List.mem_cons_of_mem _ hc, hcn, hlook⟩
    · have hn : config.name = n := by
        simp only [List.map_cons, List.mem_cons] at h
        rcases h with h | h
        · exact h.symm
        · exact absurd h hrest
      refine ⟨config, List.mem_cons_self _ _, hn, ?_⟩
      rw [collectResults, collectResults_lookup_not_mem _ _ _ _ _ hrest,
        dictLookup_insert, if_pos hn]

theorem collectResults_mem_keys (order : List AgentConfig)
    (task : AgentConfig → TaskOutcome) (now : String)
    (init : List (String × InvocationResult)) (m : String) :
    m ∈ dictKeys (collectResults init order task now) ↔
      m ∈ dictKeys init ∨ m ∈ order.map AgentConfig.name := by
  induction order generalizing init with
  | nil => simp [collectResults]
  | cons config rest ih =>
    rw [collectResults, ih]
    have : m ∈ dictKeys (dictInsert init config.name (entryFor task config now)) ↔
        m ∈ dictKeys init ∨ m = config.name := by
      rw [dictKeys_insert]
      by_cases hmem : config.name ∈ dictKeys init
      · rw [if_pos hmem]
        constructor
        · exact Or.inl
        · rintro (h | rfl)
          · exact h
          · exact hmem
      · rw [if_neg hmem]
        simp [List.mem_append]
    rw [this]
    simp only [List.map_cons, List.mem_cons]
    tauto

theorem collectResults_keys_nodup (order : List AgentConfig)
    (task : AgentConfig → TaskOutcome) (now : String)
    (init : List (String × InvocationResult))
    (h : (dictKeys init).Nodup) :
    (dictKeys (collectResults init order task now)).Nodup := by
  induction order generalizing init with
  | nil => exact h
  | cons config rest ih =>
    exact ih _ (dictKeys_nodup_insert _ _ _ h)

theorem collectResults_length_nodup (order : List AgentConfig)
    (task : AgentConfig → TaskOutcome) (now : String)
    (init : List (String × InvocationResult))
    (hnodup : (order.map AgentConfig.name).Nodup)
    (hdisj : ∀ n ∈ order.map AgentConfig.name, n ∉ dictKeys init) :
    (collectResults init order task now).length = init.length + order.length := by
  induction order generalizing init with
  | nil => rfl
  | cons config rest ih =>
    simp only [List.map_cons, List.nodup_cons] at hnodup
    rw [collectResults, ih _ hnodup.2, dictLength_insert_not_mem _ _ _
      (hdisj config.name (by simp))]
    · simp only [List.length_cons]
      omega
    · intro n hn
      rw [dictKeys_insert, if_neg (hdisj config.name (by simp))]
      simp only [List.mem_append, List.mem_singleton, not_or]
      refine ⟨hdisj n (by simp [hn]), ?_⟩
      intro hcontra
      exact hnodup.1 (hcontra ▸ hn)

/-! ## Concrete fixtures used by witnesses and counterexamples -/

/-- Two configs that share the name `"A"`; both have nonempty agent ids,
so the code's validation passes them. -/
def cfgDupA1 : AgentConfig :=
  { name := "A", agent_id := "agent-id-1", agent_alias_id := "alias-1", session_id := "sess-1" }

/-- Second config with the duplicate name `"A"`. -/
def cfgDupA2 : AgentConfig :=
  { name := "A", agent_id := "agent-id-2", agent_alias_id := "alias-2", session_id := "sess-2" }

/-- A fully populated config named `"A"`. -/
def cfgB1 : AgentConfig :=
  { name := "A", agent_id := "id-a", agent_alias_id := "al-a", session_id := "s-a" }

/-- A fully populated config named `"B"`. -/
def cfgB2 : AgentConfig :=
  { name := "B", agent_id := "id-b", agent_alias_id := "al-b", session_id := "s-b" }

/-- A config whose name, alias id and session id are all empty but whose
agent id is nonempty. -/
def cfgNoSession : AgentConfig :=
  { name := "", agent_id := "agent-id-x", agent_alias_id := "", session_id := "" }

/-- A config with an empty agent id. -/
def cfgMissingId : AgentConfig :=
  { name := "M", agent_id := "", agent_alias_id := "al", session_id := "s" }

/-- A task set in which every agent answers with the single chunk "hi". -/
def demoOkTask : AgentConfig → TaskOutcome :=
  fun c => .done (invokeResult (.ok (some [⟨some ⟨some "hi"⟩⟩])) c.name "2024-01-01 00:00:00")

theorem demoOkTask_wellFormed_aux (c : AgentConfig) :
    demoOkTask c = .done (invokeResult (.ok (some [⟨some ⟨some "hi"⟩⟩])) c.name
      "2024-01-01 00:00:00") := rfl

/-! ## Claims -/

/-- C1, counterexample: the batch `[cfgDupA1, cfgDupA2]` (two configs
sharing the name "A") passes the code's validation (no error is shown),
yet the produced result mapping has a single entry for its two configs:
the second completion overwrites the first in the name-keyed dict. -/
theorem C1_counterexample :
    (compareHandler [] [cfgDupA1, cfgDupA2] "hello" [cfgDupA1, cfgDupA2]
        demoOkTask "t").errorShown = none ∧
    (compareHandler [] [cfgDupA1, cfgDupA2] "hello" [cfgDupA1, cfgDupA2]
        demoOkTask "t").responses.length = 1 ∧
    [cfgDupA1, cfgDupA2].length = 2 := by
  decide

/-- C1, amended: for every batch that passes the code's validation and
whose config names are pairwise distinct, the result mapping has exactly
one entry per config — its size equals the number of configs, every
config's name is mapped to a result, and the keys are duplicate-free —
for any completion order of the futures.  (When two configs share the
same name the mapping instead has one shared entry for them, as the
counterexample shows.) -/
theorem C1_one_result_per_config
    (prev : List (String × InvocationResult)) (models_config order : List AgentConfig)
    (task : AgentConfig → TaskOutcome) (prompt now : String)
    (hperm : order.Perm models_config)
    (hnodup : (models_config.map AgentConfig.name).Nodup)
    (hprompt : prompt ≠ "")
    (hvalid : models_config.all (fun config => config.agent_id ≠ "") = true) :
    (compareHandler prev models_config prompt order task now).responses.length
        = models_config.length ∧
    (∀ c ∈ models_config, ∃ r,
      dictLookup (compareHandler prev models_config prompt order task now).responses c.name
        = some r) ∧
    (dictKeys (compareHandler prev models_config prompt order task now).responses).Nodup := by
  unfold compareHandler
  rw [if_neg hprompt, if_neg (not_not_intro hvalid)]
  have hperm' := hperm.map AgentConfig.name
  have hnodup' : (order.map AgentConfig.name).Nodup := hperm'.nodup_iff.mpr hnodup
  refine ⟨?_, ?_, ?_⟩
  · rw [collectResults_length_nodup order task now [] hnodup' (by simp [dictKeys])]
    simpa using hperm.length_eq
  · intro c hc
    have hmem : c.name ∈ order.map AgentConfig.name :=
      hperm'.mem_iff.mpr (List.mem_map_of_mem _ hc)
    obtain ⟨c', -, -, hlook⟩ := collectResults_lookup_mem order task now [] c.name hmem
    exact ⟨_, hlook⟩
  · exact collectResults_keys_nodup order task now [] (by simp [dictKeys])

/-- Witness for the amended C1: a two-config batch with distinct names
"A", "B", collected in reversed completion order, yields a mapping of
size two. -/
theorem C1_one_result_per_config_witness :
    (compareHandler [] [cfgB1, cfgB2] "hello" [cfgB2, cfgB1] demoOkTask "t").responses.length
      = [cfgB1, cfgB2].length :=
  (C1_one_result_per_config [] [cfgB1, cfgB2] [cfgB2, cfgB1] demoOkTask "hello" "t"
    (List.Perm.swap cfgB1 cfgB2 []) (by decide) (by decide) (by decide)).1

/-- C3, counterexample: a config whose name, agent alias id and session id
are all empty (only the agent id is nonempty) is not rejected: no
validation error is shown and its invocation is submitted, contradicting
the claim that such a batch is rejected before any invocation starts. -/
theorem C3_counterexample :
    (compareHandler [] [cfgNoSession] "hi" [cfgNoSession] demoOkTask "t").errorShown = none ∧
    (compareHandler [] [cfgNoSession] "hi" [cfgNoSession] demoOkTask "t").invoked
      = [cfgNoSession] ∧
    cfgNoSession.name = "" ∧ cfgNoSession.agent_alias_id = "" ∧
    cfgNoSession.session_id = "" := by
  decide

/-- C3, amended: the only validation the code performs is on agent ids.
With an empty prompt the handler does nothing at all (no invocation, but
also no reported failure); with a nonempty prompt and some config's agent
id empty, the validation error is shown, the previous mapping is kept and
no invocation is submitted; otherwise every config's invocation is
submitted.  Empty names, alias ids or session ids and duplicate names are
not checked. -/
theorem C3_agent_id_validation_only
    (prev : List (String × InvocationResult)) (models_config order : List AgentConfig)
    (task : AgentConfig → TaskOutcome) (prompt now : String) :
    (prompt = "" →
      compareHandler prev models_config prompt order task now =
        { responses := prev, errorShown := none, invoked := [] }) ∧
    (prompt ≠ "" → ¬ (models_config.all (fun config => config.agent_id ≠ "") = true) →
      compareHandler prev models_config prompt order task now =
        { responses := prev
          errorShown := some "Please configure all Agent IDs before comparing."
          invoked := [] }) ∧
    (prompt ≠ "" → models_config.all (fun config => config.agent_id ≠ "") = true →
      (compareHandler prev models_config prompt order task now).invoked = models_config) := by
  refine ⟨?_, ?_, ?_⟩
  · intro h
    simp [compareHandler, h]
  · intro h1 h2
    unfold compareHandler
    rw [if_neg h1, if_pos h2]
  · intro h1 h2
    unfold compareHandler
    rw [if_neg h1, if_neg (not_not_intro h2)]

/-- Witness for the amended C3: a batch with one config missing its agent
id is rejected wholesale — the error is shown, the previous mapping is
kept, and zero invocations are submitted. -/
theorem C3_agent_id_validation_only_witness :
    compareHandler [] [cfgB1, cfgMissingId] "hi" [cfgB1, cfgMissingId] demoOkTask "t" =
      { responses := []
        errorShown := some "Please configure all Agent IDs before comparing."
        invoked := [] } :=
  (C3_agent_id_validation_only [] [cfgB1, cfgMissingId] [cfgB1, cfgMissingId]
    demoOkTask "hi" "t").2.1 (by decide) (by decide)

theorem foldl_appendChunk_no_chunks (events : List StreamEvent) (acc : String)
    (h : ∀ e ∈ events, e.chunk = none) : events.foldl appendChunk acc = acc := by
  induction events generalizing acc with
  | nil => rfl
  | cons e rest ih =>
    rw [List.foldl_cons, appendChunk, h e (List.mem_cons_self _ _)]
    exact ih acc (fun e' he' => h e' (List.mem_cons_of_mem _ he'))

/-- C2: when the remote call (or anything else inside `invoke_agent`'s
`try` block) raises, the `except` branch returns a failure-tagged result
whose error text starts with the exception's message; and in the
collection loop every config's future — whatever its task does, return or
raise — yields an entry in the mapping, so no invocation propagates an
unhandled exception out of the compare operation (in the embedding both
`invokeResult` and `collectResults` are total functions). -/
theorem C2_exception_contained (msg model_name now : String)
    (order : List AgentConfig) (task : AgentConfig → TaskOutcome)
    (c : AgentConfig) (hc : c ∈ order) :
    (invokeResult (.exn msg) model_name now).success = false ∧
    (∃ suffix, (invokeResult (.exn msg) model_name now).error = some (msg ++ suffix)) ∧
    (∃ r, dictLookup (collectResults [] order task now) c.name = some r) := by
  refine ⟨rfl, ?_, ?_⟩
  · by_cases h : containsSubstring msg stopSequencesMarker = true
    · exact ⟨solutionHint, by simp [invokeResult, augmentError, h]⟩
    · exact ⟨"", by simp [invokeResult, augmentError, h]⟩
  · have hmem : c.name ∈ order.map AgentConfig.name := List.mem_map_of_mem _ hc
    obtain ⟨c', -, -, hlook⟩ := collectResults_lookup_mem order task now [] c.name hmem
    exact ⟨_, hlook⟩

/-- Witness for C2 at a concrete exception and a concrete one-config
batch. -/
theorem C2_exception_contained_witness :
    (invokeResult (.exn "boom") "m" "t").success = false ∧
    (∃ suffix, (invokeResult (.exn "boom") "m" "t").error = some ("boom" ++ suffix)) ∧
    (∃ r, dictLookup (collectResults [] [cfgB1] demoOkTask "t") cfgB1.name = some r) :=
  C2_exception_contained "boom" "m" "t" [cfgB1] demoOkTask cfgB1 (List.mem_cons_self _ _)

/-- C4: a remote call that succeeds but yields zero chunks — an absent
completion, an empty event list, or events none of which carries a chunk —
produces a success result whose response is the fixed placeholder
"No response received"; failure results are distinguishable by the success
flag (and carry no response at all), and a stream whose concatenation is
nonempty produces exactly that concatenation, so a non-placeholder actual
response is distinguishable from the placeholder. -/
theorem C4_empty_stream_placeholder (model_name now : String) :
    (invokeResult (.ok none) model_name now).success = true ∧
    (invokeResult (.ok none) model_name now).response = some "No response received" ∧
    (invokeResult (.ok (some [])) model_name now).response = some "No response received" ∧
    (∀ events : List StreamEvent, (∀ e ∈ events, e.chunk = none) →
      (invokeResult (.ok (some events)) model_name now).success = true ∧
      (invokeResult (.ok (some events)) model_name now).response
        = some "No response received") ∧
    (∀ msg, (invokeResult (.exn msg) model_name now).success = false ∧
      (invokeResult (.exn msg) model_name now).response = none) ∧
    (∀ completion, processCompletion completion ≠ "" →
      (invokeResult (.ok completion) model_name now).response
        = some (processCompletion completion)) ∧
    (∀ completion, processCompletion completion ≠ "" →
      processCompletion completion ≠ "No response received" →
      (invokeResult (.ok completion) model_name now).response
        ≠ some "No response received") := by
  refine ⟨rfl, rfl, rfl, ?_, ?_, ?_, ?_⟩
  · intro events h
    have hempty : processCompletion (some events) = "" :=
      foldl_appendChunk_no_chunks events "" h
    exact ⟨rfl, by simp [invokeResult, hempty]⟩
  · intro msg
    exact ⟨rfl, rfl⟩
  · intro completion h
    simp [invokeResult, h]
  · intro completion h hne
    simp only [invokeResult, if_neg h]
    exact fun hcon => hne (Option.some.inj hcon)

/-- Witness for C4: a chunkless event yields the placeholder, and the
two-chunk stream "Hel", "lo!" yields the actual response "Hello!". -/
theorem C4_empty_stream_placeholder_witness :
    (invokeResult (.ok (some [⟨none⟩])) "m" "t").response = some "No response received" ∧
    (invokeResult (.ok (some [⟨some ⟨some "Hel"⟩⟩, ⟨some ⟨some "lo!"⟩⟩])) "m" "t").response
      = some "Hello!" := by
  constructor
  · exact ((C4_empty_stream_placeholder "m" "t").2.2.2.1 [⟨none⟩] (by decide)).2
  · have h := (C4_empty_stream_placeholder "m" "t").2.2.2.2.2.1
      (some [⟨some ⟨some "Hel"⟩⟩, ⟨some ⟨some "lo!"⟩⟩]) (by decide)
    rw [h]
    decide

/-- C5: a failure's error message is augmented with the fixed remediation
hint exactly when the message contains the marker "stopSequences" as a
substring; a message not containing the marker is returned unmodified,
and the augmentation is the pure string concatenation of the original
message with the hint. -/
theorem C5_stop_sequences_hint (msg model_name now : String) :
    ((∃ pre post : String, msg = pre ++ stopSequencesMarker ++ post) →
      (invokeResult (.exn msg) model_name now).error = some (msg ++ solutionHint)) ∧
    (¬ (∃ pre post : String, msg = pre ++ stopSequencesMarker ++ post) →
      (invokeResult (.exn msg) model_name now).error = some msg) := by
  constructor
  · intro h
    have hb : containsSubstring msg stopSequencesMarker = true :=
      (containsSubstring_iff _ _).mpr h
    simp [invokeResult, augmentError, hb]
  · intro h
    have hb : ¬ containsSubstring msg stopSequencesMarker = true :=
      fun hcon => h ((containsSubstring_iff _ _).mp hcon)
    simp [invokeResult, augmentError, hb]

/-- Witness for C5: a message containing the marker is augmented with the
hint; a message without it passes through unmodified. -/
theorem C5_stop_sequences_hint_witness :
    (invokeResult (.exn "stopSequences not supported") "m" "t").error
      = some ("stopSequences not supported" ++ solutionHint) ∧
    (invokeResult (.exn "access denied") "m" "t").error = some "access denied" := by
  constructor
  · exact (C5_stop_sequences_hint "stopSequences not supported" "m" "t").1
      ⟨"", " not supported", by decide⟩
  · refine (C5_stop_sequences_hint "access denied" "m" "t").2 ?_
    intro h
    exact absurd ((containsSubstring_iff "access denied" stopSequencesMarker).mpr h)
      (by decide)

theorem collectResults_congr_off (order : List AgentConfig)
    (t1 t2 : AgentConfig → TaskOutcome) (now n0 : String)
    (hagree : ∀ c, c.name ≠ n0 → t1 c = t2 c) :
    ∀ d1 d2 : List (String × InvocationResult),
      (∀ n, n ≠ n0 → dictLookup d1 n = dictLookup d2 n) →
      ∀ n, n ≠ n0 →
        dictLookup (collectResults d1 order t1 now) n
          = dictLookup (collectResults d2 order t2 now) n := by
  induction order with
  | nil => exact fun d1 d2 hinit => hinit
  | cons config rest ih =>
    intro d1 d2 hinit n hn
    rw [collectResults, collectResults]
    refine ih _ _ ?_ n hn
    intro m hm
    rw [dictLookup_insert, dictLookup_insert]
    by_cases hcn : config.name = m
    · rw [if_pos hcn, if_pos hcn]
      have hcfg : config.name ≠ n0 := by rw [hcn]; exact hm
      have heq : entryFor t1 config now = entryFor t2 config now := by
        unfold entryFor
        rw [hagree config hcfg]
      rw [heq]
    · rw [if_neg hcn, if_neg hcn]
      exact hinit m hm

/-- C6: two presses of the compare button over the same batch whose
injected task behaviors agree on every agent except the one named `n0`
produce, for every other name, the identical entry in the result mapping:
one agent's changed outcome (success, error, or raise) never alters a
sibling's result. -/
theorem C6_sibling_isolation (prev1 prev2 : List (String × InvocationResult))
    (models_config order : List AgentConfig)
    (t1 t2 : AgentConfig → TaskOutcome) (prompt now n0 : String)
    (hagree : ∀ c, c.name ≠ n0 → t1 c = t2 c)
    (hprompt : prompt ≠ "")
    (hvalid : models_config.all (fun config => config.agent_id ≠ "") = true) :
    ∀ n, n ≠ n0 →
      dictLookup (compareHandler prev1 models_config prompt order t1 now).responses n =
      dictLookup (compareHandler prev2 models_config prompt order t2 now).responses n := by
  intro n hn
  unfold compareHandler
  rw [if_neg hprompt, if_neg (not_not_intro hvalid), if_neg hprompt,
    if_neg (not_not_intro hvalid)]
  exact collectResults_congr_off order t1 t2 now n0 hagree [] [] (fun _ _ => rfl) n hn

/-- A task set in which the agent named "B" raises and every other agent
answers like `demoOkTask`. -/
def demoFailBTask : AgentConfig → TaskOutcome :=
  fun c => if c.name = "B" then .raised "boom" else demoOkTask c

/-- Witness for C6: flipping agent "B" from succeeding to raising leaves
agent "A"'s entry untouched. -/
theorem C6_sibling_isolation_witness :
    dictLookup (compareHandler [] [cfgB1, cfgB2] "hello" [cfgB1, cfgB2]
      demoOkTask "t").responses "A" =
    dictLookup (compareHandler [] [cfgB1, cfgB2] "hello" [cfgB1, cfgB2]
      demoFailBTask "t").responses "A" :=
  C6_sibling_isolation [] [] [cfgB1, cfgB2] [cfgB1, cfgB2] demoOkTask demoFailBTask
    "hello" "t" "B"
    (fun c hc => by
      have hcB : ¬ c.name = "B" := hc
      simp [demoFailBTask, hcB])
    (by decide) (by decide) "A" (by decide)

/-- C7: for every completion order of the futures — any permutation of
the submitted configs, regardless of which futures fail or raise — the
mapping handed back by the compare handler has exactly the submitted
configs' names as keys, each bound to a result: the collection loop
consumes every scheduled invocation before the handler returns, with no
early return on first completion or first failure. -/
theorem C7_full_join (prev : List (String × InvocationResult))
    (models_config order : List AgentConfig)
    (task : AgentConfig → TaskOutcome) (prompt now : String)
    (hperm : order.Perm models_config)
    (hprompt : prompt ≠ "")
    (hvalid : models_config.all (fun config => config.agent_id ≠ "") = true) :
    (∀ c ∈ models_config, ∃ r,
      dictLookup (compareHandler prev models_config prompt order task now).responses c.name
        = some r) ∧
    (∀ n, n ∈ dictKeys (compareHandler prev models_config prompt order task now).responses ↔
      n ∈ models_config.map AgentConfig.name) := by
  unfold compareHandler
  rw [if_neg hprompt, if_neg (not_not_intro hvalid)]
  have hperm' := hperm.map AgentConfig.name
  constructor
  · intro c hc
    have hmem : c.name ∈ order.map AgentConfig.name :=
      hperm'.mem_iff.mpr (List.mem_map_of_mem _ hc)
    obtain ⟨c', -, -, hlook⟩ := collectResults_lookup_mem order task now [] c.name hmem
    exact ⟨_, hlook⟩
  · intro n
    rw [collectResults_mem_keys order task now [] n]
    simp [dictKeys, hperm'.mem_iff]

/-- Witness for C7: with agent "A" raising and agent "B" succeeding, and
the futures completing in reversed order, both names are still keys of the
result mapping. -/
theorem C7_full_join_witness :
    (∃ r, dictLookup (compareHandler [] [cfgB1, cfgB2] "hello" [cfgB2, cfgB1]
      demoFailBTask "t").responses cfgB1.name = some r) ∧
    ("B" ∈ dictKeys (compareHandler [] [cfgB1, cfgB2] "hello" [cfgB2, cfgB1]
      demoFailBTask "t").responses) := by
  have h := C7_full_join [] [cfgB1, cfgB2] [cfgB2, cfgB1] demoFailBTask "hello" "t"
    (List.Perm.swap cfgB1 cfgB2 []) (by decide) (by decide)
  exact ⟨h.1 cfgB1 (List.mem_cons_self _ _), (h.2 "B").mpr (by decide)⟩

/-- C8: the clear handler replaces the live mapping with a fresh empty
one, and a comparison run builds its mapping from scratch: the handler's
result is independent of whatever mapping was live before, and every key
of the new mapping comes from the current batch — entries of a prior run
are never merged in. -/
theorem C8_fresh_mapping (prev1 prev2 : List (String × InvocationResult))
    (models_config order : List AgentConfig)
    (task : AgentConfig → TaskOutcome) (prompt now : String)
    (hprompt : prompt ≠ "")
    (hvalid : models_config.all (fun config => config.agent_id ≠ "") = true) :
    clearHandler prev1 = [] ∧
    (compareHandler prev1 models_config prompt order task now).responses =
      (compareHandler prev2 models_config prompt order task now).responses ∧
    (∀ n, n ∈ dictKeys (compareHandler prev1 models_config prompt order task now).responses →
      n ∈ order.map AgentConfig.name) := by
  refine ⟨rfl, ?_, ?_⟩
  · unfold compareHandler
    rw [if_neg hprompt, if_neg (not_not_intro hvalid), if_neg hprompt,
      if_neg (not_not_intro hvalid)]
  · intro n hn
    unfold compareHandler at hn
    rw [if_neg hprompt, if_neg (not_not_intro hvalid)] at hn
    have := (collectResults_mem_keys order task now [] n).mp hn
    simpa [dictKeys] using this

/-- A stale result entry from a hypothetical earlier run. -/
def staleResult : InvocationResult :=
  { success := true
    response := some "stale"
    error := none
    model := "old"
    timestamp := "t0" }

/-- Witness for C8: a stale entry under the name "old" does not survive a
new run. -/
theorem C8_fresh_mapping_witness :
    (compareHandler [("old", staleResult)] [cfgB1] "hello" [cfgB1]
        demoOkTask "t").responses =
      (compareHandler [] [cfgB1] "hello" [cfgB1] demoOkTask "t").responses :=
  (C8_fresh_mapping [("old", staleResult)] [] [cfgB1] [cfgB1] demoOkTask "hello" "t"
    (by decide) (by decide)).2.1

/-- Shape of the per-config task behaviors the code can actually produce:
each future either returns `invoke_agent`'s result — built by
`invokeResult` from some remote outcome, with the config's name passed as
`model_name` (app.py lines 127-135) — or raises with some message. -/
def WellFormedTask (task : AgentConfig → TaskOutcome) : Prop :=
  ∀ c, (∃ outcome now0, task c = .done (invokeResult outcome c.name now0)) ∨
       (∃ msg, task c = .raised msg)

theorem entryFor_shape (task : AgentConfig → TaskOutcome) (hw : WellFormedTask task)
    (c : AgentConfig) (now : String) :
    ((entryFor task c now).success = true →
      (entryFor task c now).response.isSome ∧ (entryFor task c now).error = none) ∧
    ((entryFor task c now).success = false →
      (entryFor task c now).error.isSome ∧ (entryFor task c now).response = none) ∧
    (entryFor task c now).model = c.name := by
  rcases hw c with ⟨outcome, now0, h⟩ | ⟨msg, h⟩
  · cases outcome <;> simp [entryFor, h, invokeResult]
  · simp [entryFor, h]

theorem collectResults_values_prop (P : String → InvocationResult → Prop)
    (order : List AgentConfig) (task : AgentConfig → TaskOutcome) (now : String) :
    ∀ init : List (String × InvocationResult),
      (∀ n r, dictLookup init n = some r → P n r) →
      (∀ c ∈ order, P c.name (entryFor task c now)) →
      ∀ n r, dictLookup (collectResults init order task now) n = some r → P n r := by
  induction order with
  | nil => exact fun init hinit _ => hinit
  | cons config rest ih =>
    intro init hinit hstep n r hr
    rw [collectResults] at hr
    refine ih _ ?_ (fun c hc => hstep c (List.mem_cons_of_mem _ hc)) n r hr
    intro m s hs
    rw [dictLookup_insert] at hs
    by_cases hcn : config.name = m
    · rw [if_pos hcn] at hs
      obtain rfl : entryFor task config now = s := Option.some.inj hs
      exact hcn ▸ hstep config (List.mem_cons_self _ _)
    · rw [if_neg hcn] at hs
      exact hinit m s hs

/-- C9: every result stored in the batch mapping — produced by
`invoke_agent`'s success branch, its `except` branch, or the collection
loop's fallback — carries the Boolean success discriminator, a model
name and a timestamp (total fields of `InvocationResult`), together with
a present response text exactly on success and a present error text
exactly on failure. -/
theorem C9_result_fields (order : List AgentConfig)
    (task : AgentConfig → TaskOutcome) (now : String)
    (hw : WellFormedTask task) (n : String) (r : InvocationResult)
    (hr : dictLookup (collectResults [] order task now) n = some r) :
    (r.success = true → r.response.isSome ∧ r.error = none) ∧
    (r.success = false → r.error.isSome ∧ r.response = none) := by
  refine collectResults_values_prop
    (fun _ r => (r.success = true → r.response.isSome ∧ r.error = none) ∧
      (r.success = false → r.error.isSome ∧ r.response = none))
    order task now [] ?_ ?_ n r hr
  · intro m s hs
    simp [dictLookup] at hs
  · intro c hc
    exact ⟨(entryFor_shape task hw c now).1, (entryFor_shape task hw c now).2.1⟩

theorem demoOkTask_wellFormed : WellFormedTask demoOkTask :=
  fun _c => Or.inl ⟨.ok (some [⟨some ⟨some "hi"⟩⟩]), "2024-01-01 00:00:00", rfl⟩

/-- The entry `demoOkTask` produces for any config named "A". -/
def demoHiResult : InvocationResult :=
  { success := true
    response := some "hi"
    error := none
    model := "A"
    timestamp := "2024-01-01 00:00:00" }

/-- Witness for C9 at a concrete one-config batch. -/
theorem C9_result_fields_witness :
    (demoHiResult.success = true → demoHiResult.response.isSome ∧ demoHiResult.error = none) ∧
    (demoHiResult.success = false → demoHiResult.error.isSome ∧ demoHiResult.response = none) :=
  C9_result_fields [cfgB1] demoOkTask "t" demoOkTask_wellFormed "A" demoHiResult (by decide)

/-- C10: every entry of the produced mapping stores a result whose model
field equals the name it is keyed under — for successes and failures
built by `invoke_agent` (which receives `config['name']` as model name)
and for the collection loop's fallback failure entry alike. -/
theorem C10_model_matches_key (order : List AgentConfig)
    (task : AgentConfig → TaskOutcome) (now : String)
    (hw : WellFormedTask task) (n : String) (r : InvocationResult)
    (hr : dictLookup (collectResults [] order task now) n = some r) :
    r.model = n := by
  refine collectResults_values_prop (fun n r => r.model = n) order task now [] ?_ ?_ n r hr
  · intro m s hs
    simp [dictLookup] at hs
  · intro c hc
    exact (entryFor_shape task hw c now).2.2

/-- Witness for C10: the entry keyed "B" (here the fallback entry for the
raising agent "B") has model field "B". -/
theorem C10_model_matches_key_witness :
    ({ success := false
       response := none
       error := some "boom"
       model := "B"
       timestamp := "t" } : InvocationResult).model = "B" :=
  C10_model_matches_key [cfgB1, cfgB2] demoFailBTask "t"
    (fun c => by
      by_cases h : c.name = "B"
      · exact Or.inr ⟨"boom", by simp [demoFailBTask, h]⟩
      · exact Or.inl ⟨.ok (some [⟨some ⟨some "hi"⟩⟩]), "2024-01-01 00:00:00",
          by simp [demoFailBTask, h, demoOkTask]⟩)
    "B" _ (by decide)
